/-
  Verification development for the tabular visualisation pipeline
  (preprocessing, column classification, filter helpers and figure helpers).

  Modelling conventions:
  * column names and cell strings are `List Char`;
  * numeric cells are `Option ℚ` (`none` stands for NaN/null);
  * Python's Unicode-aware character predicates (`str.isalnum`,
    `str.strip`, `str.lower`) are modelled by Lean's ASCII `Char`
    predicates `Char.isAlphanum`, `Char.isWhitespace`, `Char.toLower`;
  * the external date parser (pandas `to_datetime`) and the external
    geodetic transform (pyproj KKJ→WGS84) are parameters of the model.
-/
import Mathlib

namespace VisTool

/-- Column names and cell strings. -/
abbrev Name := List Char

/-- Shorthand turning a string literal into the `List Char` model. -/
def lit (s : String) : Name := s.toList

/-! ### Python `str.strip` -/

/-- Python's `str.strip`: drop characters satisfying `p` from both ends.
`strip()` (no argument) is `pyStrip Char.isWhitespace`,
`strip("_")` is `pyStrip (fun c => c == '_')`. -/
def pyStrip (p : Char → Bool) (l : List Char) : List Char :=
  List.rdropWhile p (l.dropWhile p)

/-! ### `_norm_cols` (analysis_pipeline.py): header normalization -/

/-- The character filter of `_norm_cols.clean`: `ch.isalnum() or ch == "_"`. -/
def keepChar (c : Char) : Bool := c.isAlphanum || c == '_'

/-- The character loop of `_norm_cols.clean`: keep letters, digits and
underscores, replace each run of other characters by one `'_'`.  The
`Bool` argument is the `prev_was_underscore` flag. -/
def replaceRun : Bool → List Char → List Char
  | _, [] => []
  | prev, c :: cs =>
    if keepChar c then c :: replaceRun (c == '_') cs
    else if prev then replaceRun true cs
    else '_' :: replaceRun true cs

/-- `_norm_cols.clean`: strip whitespace, filter characters, strip
underscores from both ends, fall back to `"col"` when empty. -/
def clean (name : Name) : Name :=
  let stripped := pyStrip Char.isWhitespace name
  let cleaned := replaceRun false stripped
  let core := pyStrip (fun c => c == '_') cleaned
  if core = [] then lit "col" else core

/-- Decimal rendering of a natural number, as Python's `str(n)` does. -/
def natRepr (n : Nat) : List Char :=
  if n = 0 then ['0'] else ((Nat.digits 10 n).map Nat.digitChar).reverse

/-- The f-string `f"{base_name}__{suffix}"` of `_norm_cols`. -/
def withSuffix (base : Name) (k : Nat) : Name := base ++ '_' :: '_' :: natRepr k

/-- The `while f"{base_name}__{suffix}" in seen: suffix += 1` loop of
`_norm_cols`, searching for the least fresh suffix starting at `s`.  The
`Nat` fuel argument bounds the search; `freshSuffix_spec` shows that fuel
`seen.length + 1` always suffices, so the bounded search agrees with the
unbounded Python loop. -/
def freshSuffix (seen : List Name) (base : Name) : Nat → Nat → Name
  | 0, s => withSuffix base s
  | f + 1, s =>
    if withSuffix base s ∈ seen then freshSuffix seen base f (s + 1)
    else withSuffix base s

/-- The main loop of `_norm_cols`: clean each name, and when the cleaned
name was already produced, append `__1`, `__2`, … until fresh. -/
def uniquify : List Name → List Name → List Name
  | _, [] => []
  | seen, c :: rest =>
    let base := clean c
    let name :=
      if base ∈ seen then freshSuffix seen base (seen.length + 1) 1 else base
    name :: uniquify (name :: seen) rest

/-- `_norm_cols`: normalize and deduplicate a column-name sequence. -/
def normCols (cols : List Name) : List Name := uniquify [] cols

/-! ### Facts about the characters involved -/

lemma keepChar_not_ws {c : Char} (h : keepChar c = true) :
    c.isWhitespace = false := by
  cases hw : c.isWhitespace
  · rfl
  · exfalso
    have hw' : (c = ' ' || c = '\t' || c = '\r' || c = '\n') = true := hw
    simp only [Bool.or_eq_true, decide_eq_true_eq] at hw'
    rcases hw' with ((h1 | h2) | h3) | h4
    · subst h1; exact absurd h (by decide)
    · subst h2; exact absurd h (by decide)
    · subst h3; exact absurd h (by decide)
    · subst h4; exact absurd h (by decide)

lemma digitChar_toNat {d : Nat} (h : d < 10) :
    (Nat.digitChar d).toNat = d + 48 := by
  interval_cases d <;> decide

lemma digitChar_keep {d : Nat} (h : d < 10) :
    keepChar (Nat.digitChar d) = true := by
  interval_cases d <;> decide

lemma digitChar_ne_underscore {d : Nat} (h : d < 10) :
    Nat.digitChar d ≠ '_' := by
  interval_cases d <;> decide

lemma digitChar_inj {d e : Nat} (hd : d < 10) (he : e < 10)
    (h : Nat.digitChar d = Nat.digitChar e) : d = e := by
  have := congrArg Char.toNat h
  rw [digitChar_toNat hd, digitChar_toNat he] at this
  omega

lemma map_digitChar_inj :
    ∀ l₁ l₂ : List Nat, (∀ x ∈ l₁, x < 10) → (∀ x ∈ l₂, x < 10) →
      l₁.map Nat.digitChar = l₂.map Nat.digitChar → l₁ = l₂ := by
  intro l₁
  induction l₁ with
  | nil => intro l₂ _ _ h; cases l₂ <;> simp_all
  | cons a t ih =>
    intro l₂ h1 h2 h
    cases l₂ with
    | nil => simp_all
    | cons b u =>
      simp only [List.map_cons, List.cons.injEq] at h
      have hab : a = b :=
        digitChar_inj (h1 a (by simp)) (h2 b (by simp)) h.1
      have htu : t = u :=
        ih u (fun x hx => h1 x (by simp [hx])) (fun x hx => h2 x (by simp [hx])) h.2
      rw [hab, htu]

lemma natRepr_inj : ∀ {m n : Nat}, natRepr m = natRepr n → m = n := by
  have key : ∀ k : Nat, k ≠ 0 →
      ((Nat.digits 10 k).map Nat.digitChar).reverse = ['0'] → False := by
    intro k hk h
    have h' : (Nat.digits 10 k).map Nat.digitChar = ['0'] := by
      have := congrArg List.reverse h
      simpa using this
    have hd : Nat.digits 10 k = [0] := by
      apply map_digitChar_inj _ [0]
        (fun x hx => Nat.digits_lt_base (by norm_num) hx)
        (by intro x hx; simp at hx; omega)
      simpa using h'
    have : k = 0 := by
      have h0 := Nat.ofDigits_digits 10 k
      rw [hd] at h0
      simpa [Nat.ofDigits] using h0.symm
    exact hk this
  intro m n h
  by_cases hm : m = 0 <;> by_cases hn : n = 0
  · omega
  · exfalso
    rw [natRepr, if_pos hm, natRepr, if_neg hn] at h
    exact key n hn h.symm
  · exfalso
    rw [natRepr, if_neg hm, natRepr, if_pos hn] at h
    exact key m hm h
  · rw [natRepr, if_neg hm, natRepr, if_neg hn] at h
    have h1 : (Nat.digits 10 m).map Nat.digitChar =
        (Nat.digits 10 n).map Nat.digitChar := by
      have := congrArg List.reverse h
      simpa using this
    have h2 : Nat.digits 10 m = Nat.digits 10 n :=
      map_digitChar_inj _ _
        (fun x hx => Nat.digits_lt_base (by norm_num) hx)
        (fun x hx => Nat.digits_lt_base (by norm_num) hx) h1
    have h3 := Nat.ofDigits_digits 10 m
    rw [h2, Nat.ofDigits_digits] at h3
    exact h3.symm

lemma withSuffix_inj (b : Name) {j k : Nat}
    (h : withSuffix b j = withSuffix b k) : j = k := by
  unfold withSuffix at h
  have h1 := List.append_cancel_left h
  simp only [List.cons.injEq, true_and] at h1
  exact natRepr_inj h1

/-! ### Freshness of the suffix search -/

lemma freshSuffix_spec (seen : List Name) (b : Name) :
    ∀ f s, freshSuffix seen b f s ∉ seen ∨
      ((∀ j, s ≤ j → j < s + f → withSuffix b j ∈ seen) ∧
        freshSuffix seen b f s = withSuffix b (s + f)) := by
  intro f
  induction f with
  | zero =>
    intro s
    right
    exact ⟨fun j h1 h2 => absurd (Nat.lt_of_le_of_lt h1 h2) (by omega),
      by simp [freshSuffix]⟩
  | succ f ih =>
    intro s
    by_cases hc : withSuffix b s ∈ seen
    · rcases ih (s + 1) with h | ⟨hall, heq⟩
      · left
        simpa [freshSuffix, hc] using h
      · right
        constructor
        · intro j h1 h2
          rcases Nat.eq_or_lt_of_le h1 with h1 | h1
          · rw [← h1]; exact hc
          · exact hall j h1 (by omega)
        · have : s + 1 + f = s + (f + 1) := by omega
          rw [← this]
          simpa [freshSuffix, hc] using heq
    · left
      have heq : freshSuffix seen b (f + 1) s = withSuffix b s := by
        simp [freshSuffix, hc]
      rw [heq]
      exact hc

lemma freshSuffix_not_mem (seen : List Name) (b : Name) :
    freshSuffix seen b (seen.length + 1) 1 ∉ seen := by
  rcases freshSuffix_spec seen b (seen.length + 1) 1 with h | ⟨hall, _⟩
  · exact h
  · exfalso
    have hsub : (Finset.Icc 1 (seen.length + 1)).image (withSuffix b) ⊆
        seen.toFinset := by
      intro x hx
      rw [Finset.mem_image] at hx
      obtain ⟨j, hj, rfl⟩ := hx
      rw [Finset.mem_Icc] at hj
      rw [List.mem_toFinset]
      exact hall j hj.1 (by omega)
    have hinj : Set.InjOn (withSuffix b) (Finset.Icc 1 (seen.length + 1)) :=
      fun x _ y _ hxy => withSuffix_inj b hxy
    have hcard := Finset.card_image_of_injOn hinj
    have hle := Finset.card_le_card hsub
    have hfin := seen.toFinset_card_le
    rw [hcard, Nat.card_Icc] at hle
    omega

lemma uniquify_length : ∀ (xs seen : List Name),
    (uniquify seen xs).length = xs.length := by
  intro xs
  induction xs with
  | nil => intro seen; simp [uniquify]
  | cons c rest ih => intro seen; simp [uniquify, ih]

lemma uniquify_nodup : ∀ (xs seen : List Name),
    (uniquify seen xs).Nodup ∧ ∀ n ∈ uniquify seen xs, n ∉ seen := by
  intro xs
  induction xs with
  | nil => intro seen; simp [uniquify]
  | cons c rest ih =>
    intro seen
    set base := clean c with hbase
    set name :=
      if base ∈ seen then freshSuffix seen base (seen.length + 1) 1 else base
      with hname
    have hfresh : name ∉ seen := by
      rw [hname]
      split
      · exact freshSuffix_not_mem seen base
      · assumption
    have htail := ih (name :: seen)
    constructor
    · rw [show uniquify seen (c :: rest) =
        name :: uniquify (name :: seen) rest from rfl]
      refine List.nodup_cons.mpr ⟨?_, htail.1⟩
      intro hmem
      exact htail.2 name hmem (by simp)
    · intro n hn
      rw [show uniquify seen (c :: rest) =
        name :: uniquify (name :: seen) rest from rfl] at hn
      rcases List.mem_cons.mp hn with hn | hn
      · rw [hn]; exact hfresh
      · intro hns
        exact htail.2 n hn (by simp [hns])

/-! ### `clean` is idempotent on its own output -/

/-- Shape of the names `clean` can produce: nonempty, only alphanumerics
and underscores, and no underscore at either end. -/
def CleanChars (l : Name) : Prop :=
  l ≠ [] ∧ (∀ c ∈ l, keepChar c = true) ∧
    l.head? ≠ some '_' ∧ l.getLast? ≠ some '_'

lemma pyStrip_eq_self (p : Char → Bool) (l : List Char)
    (hh : ∀ a, l.head? = some a → p a = false)
    (hl : ∀ a, l.getLast? = some a → p a = false) : pyStrip p l = l := by
  have hdrop : l.dropWhile p = l := by
    cases l with
    | nil => rfl
    | cons a t =>
      have := hh a rfl
      simp [List.dropWhile_cons, this]
  rw [pyStrip, hdrop, List.rdropWhile_eq_self_iff]
  intro hne
  have := hl (l.getLast hne) (List.getLast?_eq_getLast l hne)
  simp [this]

lemma pyStrip_sublist (p : Char → Bool) (l : List Char) :
    (pyStrip p l).Sublist l :=
  ( List.rdropWhile_prefix p (l.dropWhile p)).sublist.trans
    (List.dropWhile_sublist p)

lemma pyStrip_ends (p : Char → Bool) (l : List Char) :
    pyStrip p l = [] ∨
      ((∀ a, (pyStrip p l).head? = some a → p a = false) ∧
        (∀ a, (pyStrip p l).getLast? = some a → p a = false)) := by
  by_cases hnil : pyStrip p l = []
  · exact Or.inl hnil
  · right
    have hnil' : List.rdropWhile p (l.dropWhile p) ≠ [] := hnil
    constructor
    · intro a ha
      have ha2 : (List.rdropWhile p (l.dropWhile p)).head? = some a := ha
      obtain ⟨t, ht⟩ := List.rdropWhile_prefix p (l.dropWhile p)
      have hmne : l.dropWhile p ≠ [] := by
        intro h0
        apply hnil'
        rw [h0, List.rdropWhile_nil]
      have hhead : (l.dropWhile p).head? = some a := by
        rw [← ht, List.head?_append, ha2]
        rfl
      have hfail := List.head_dropWhile_not p l hmne
      have := List.head?_eq_head hmne
      rw [this] at hhead
      have ha' : a = (l.dropWhile p).head hmne := by
        injection hhead.symm
      rw [ha']
      simpa using hfail
    · intro a ha
      have ha2 : (List.rdropWhile p (l.dropWhile p)).getLast? = some a := ha
      have hlast := List.rdropWhile_last_not (l := l.dropWhile p) (p := p) hnil'
      have heq := List.getLast?_eq_getLast _ hnil'
      rw [heq] at ha2
      have ha' : a = (List.rdropWhile p (l.dropWhile p)).getLast hnil' := by
        injection ha2.symm
      rw [ha']
      simpa using hlast

lemma replaceRun_eq_self : ∀ (prev : Bool) (l : List Char),
    (∀ c ∈ l, keepChar c = true) → replaceRun prev l = l := by
  intro prev l
  induction l generalizing prev with
  | nil => intro _; rfl
  | cons a t ih =>
    intro h
    have ha := h a (by simp)
    simp only [replaceRun, ha, if_true]
    rw [ih (a == '_') (fun c hc => h c (by simp [hc]))]

lemma replaceRun_keep : ∀ (prev : Bool) (l : List Char),
    ∀ c ∈ replaceRun prev l, keepChar c = true := by
  intro prev l
  induction l generalizing prev with
  | nil => intro c hc; simp [replaceRun] at hc
  | cons a t ih =>
    intro c hc
    by_cases ha : keepChar a = true
    · simp only [replaceRun, ha, if_true] at hc
      rcases List.mem_cons.mp hc with hc | hc
      · rw [hc]; exact ha
      · exact ih _ c hc
    · simp only [replaceRun, ha, if_false] at hc
      rcases prev with _ | _
      · simp only [Bool.false_eq_true, if_false] at hc
        rcases List.mem_cons.mp hc with hc | hc
        · rw [hc]; decide
        · exact ih _ c hc
      · simp only [if_true] at hc
        exact ih _ c hc

lemma cleanChars_clean (l : Name) : CleanChars (clean l) := by
  rw [clean]
  set cleaned := replaceRun false (pyStrip Char.isWhitespace l) with hcl
  by_cases hc : pyStrip (fun c => c == '_') cleaned = []
  · simp only [hc, if_pos]
    exact ⟨by decide, by decide, by decide, by decide⟩
  · simp only [hc, if_neg, if_false]
    refine ⟨hc, ?_, ?_, ?_⟩
    · intro c hcmem
      exact replaceRun_keep false _ c
        ((pyStrip_sublist (fun c => c == '_') cleaned).subset hcmem)
    · rcases pyStrip_ends (fun c => c == '_') cleaned with h | ⟨hh, _⟩
      · exact absurd h hc
      · intro habs
        have := hh '_' habs
        simp at this
    · rcases pyStrip_ends (fun c => c == '_') cleaned with h | ⟨_, hl⟩
      · exact absurd h hc
      · intro habs
        have := hl '_' habs
        simp at this

lemma clean_of_cleanChars {l : Name} (h : CleanChars l) : clean l = l := by
  obtain ⟨hne, hkeep, hhead, hlast⟩ := h
  have h1 : pyStrip Char.isWhitespace l = l := by
    refine pyStrip_eq_self _ _ ?_ ?_
    · intro a ha
      exact keepChar_not_ws (hkeep a (List.mem_of_mem_head? (by rw [ha]; rfl)))
    · intro a ha
      exact keepChar_not_ws (hkeep a (List.mem_of_getLast?_eq_some ha))
  have h2 : replaceRun false l = l := replaceRun_eq_self false l hkeep
  have h3 : pyStrip (fun c => c == '_') l = l := by
    refine pyStrip_eq_self _ _ ?_ ?_
    · intro a ha
      have : a ≠ '_' := fun habs => hhead (by rw [← habs, ha])
      simp [this]
    · intro a ha
      have : a ≠ '_' := fun habs => hlast (by rw [← habs, ha])
      simp [this]
  rw [clean, h1, h2, h3, if_neg hne]

lemma natRepr_ne_nil (n : Nat) : natRepr n ≠ [] := by
  rw [natRepr]
  by_cases h : n = 0
  · simp [h]
  · simp only [h, if_false, if_neg]
    intro habs
    rw [List.reverse_eq_nil_iff, List.map_eq_nil_iff] at habs
    exact (Nat.digits_ne_nil_iff_ne_zero.mpr h) habs

lemma natRepr_keep {n : Nat} {c : Char} (hc : c ∈ natRepr n) :
    keepChar c = true ∧ c ≠ '_' := by
  rw [natRepr] at hc
  by_cases h : n = 0
  · rw [if_pos h] at hc
    simp at hc
    rw [hc]
    exact ⟨by decide, by decide⟩
  · rw [if_neg h] at hc
    rw [List.mem_reverse, List.mem_map] at hc
    obtain ⟨d, hd, rfl⟩ := hc
    have hlt : d < 10 := Nat.digits_lt_base (by norm_num) hd
    exact ⟨digitChar_keep hlt, digitChar_ne_underscore hlt⟩

lemma cleanChars_withSuffix {b : Name} (hb : CleanChars b) (k : Nat) :
    CleanChars (withSuffix b k) := by
  obtain ⟨hne, hkeep, hhead, hlast⟩ := hb
  refine ⟨by simp [withSuffix], ?_, ?_, ?_⟩
  · intro c hc
    rw [withSuffix] at hc
    rcases List.mem_append.mp hc with hc | hc
    · exact hkeep c hc
    · rcases List.mem_cons.mp hc with hc | hc
      · rw [hc]; decide
      · rcases List.mem_cons.mp hc with hc | hc
        · rw [hc]; decide
        · exact (natRepr_keep hc).1
  · rw [withSuffix, List.head?_append]
    cases hb : b.head? with
    | none => exact absurd (List.head?_eq_none_iff.mp hb) hne
    | some a =>
      intro habs
      apply hhead
      rw [hb]
      simp only [hb, Option.or_some] at habs
      exact habs
  · rw [withSuffix, List.getLast?_append]
    have h1 : ('_' :: '_' :: natRepr k).getLast? = (natRepr k).getLast? := by
      have h2 : '_' :: '_' :: natRepr k = ['_', '_'] ++ natRepr k := rfl
      rw [h2, List.getLast?_append]
      cases hnr : (natRepr k).getLast? with
      | none => exact absurd (List.getLast?_eq_none_iff.mp hnr) (natRepr_ne_nil k)
      | some a => rfl
    rw [h1]
    cases hnr : (natRepr k).getLast? with
    | none => exact absurd (List.getLast?_eq_none_iff.mp hnr) (natRepr_ne_nil k)
    | some a =>
      simp only [Option.or_some]
      intro habs
      have ha : a ∈ natRepr k :=
        List.mem_of_getLast?_eq_some hnr
      have := (natRepr_keep ha).2
      injection habs with habs'
      exact this habs'

lemma freshSuffix_shape (seen : List Name) (b : Name) :
    ∀ f s, ∃ k, s ≤ k ∧ freshSuffix seen b f s = withSuffix b k := by
  intro f
  induction f with
  | zero => intro s; exact ⟨s, le_refl s, rfl⟩
  | succ f ih =>
    intro s
    by_cases hc : withSuffix b s ∈ seen
    · obtain ⟨k, hk, heq⟩ := ih (s + 1)
      exact ⟨k, by omega, by simpa [freshSuffix, hc] using heq⟩
    · exact ⟨s, le_refl s, by simp [freshSuffix, hc]⟩

lemma uniquify_cleanFixed : ∀ (xs seen : List Name),
    ∀ n ∈ uniquify seen xs, clean n = n := by
  intro xs
  induction xs with
  | nil => intro seen n hn; simp [uniquify] at hn
  | cons c rest ih =>
    intro seen n hn
    rw [show uniquify seen (c :: rest) =
      (if clean c ∈ seen then
        freshSuffix seen (clean c) (seen.length + 1) 1 else clean c) ::
        uniquify ((if clean c ∈ seen then
          freshSuffix seen (clean c) (seen.length + 1) 1 else clean c) :: seen)
          rest from rfl] at hn
    rcases List.mem_cons.mp hn with hn | hn
    · rw [hn]
      split
      · obtain ⟨k, _, heq⟩ :=
          freshSuffix_shape seen (clean c) (seen.length + 1) 1
        rw [heq]
        exact clean_of_cleanChars (cleanChars_withSuffix (cleanChars_clean c) k)
      · exact clean_of_cleanChars (cleanChars_clean c)
    · exact ih _ n hn

lemma uniquify_eq_self : ∀ (xs seen : List Name), xs.Nodup →
    (∀ x ∈ xs, clean x = x) → (∀ x ∈ xs, x ∉ seen) →
    uniquify seen xs = xs := by
  intro xs
  induction xs with
  | nil => intro seen _ _ _; rfl
  | cons c rest ih =>
    intro seen hnd hcf hns
    have hc : clean c = c := hcf c (by simp)
    have hcs : c ∉ seen := hns c (by simp)
    rw [show uniquify seen (c :: rest) =
      (if clean c ∈ seen then
        freshSuffix seen (clean c) (seen.length + 1) 1 else clean c) ::
        uniquify ((if clean c ∈ seen then
          freshSuffix seen (clean c) (seen.length + 1) 1 else clean c) :: seen)
          rest from rfl]
    rw [hc, if_neg hcs]
    congr 1
    refine ih (c :: seen) (List.nodup_cons.mp hnd).2
      (fun x hx => hcf x (by simp [hx])) ?_
    intro x hx
    rw [List.mem_cons]
    push_neg
    exact ⟨fun habs => (List.nodup_cons.mp hnd).1 (habs ▸ hx),
      hns x (by simp [hx])⟩

/-- C7: Header normalization (`_norm_cols`) returns a sequence of the
same length whose names are pairwise distinct, and it is idempotent:
applying it to its own output returns that output unchanged. -/
theorem c7_norm_cols_length_nodup_idempotent (cols : List Name) :
    (normCols cols).length = cols.length ∧ (normCols cols).Nodup ∧
      normCols (normCols cols) = normCols cols := by
  refine ⟨uniquify_length cols [], (uniquify_nodup cols []).1, ?_⟩
  exact uniquify_eq_self (normCols cols) []
    (uniquify_nodup cols []).1
    (fun x hx => uniquify_cleanFixed cols [] x hx)
    (fun x _ => List.not_mem_nil x)

/-! ### Generic string helpers -/

/-- Python `str.lower` (ASCII model, as `Char.toLower`). -/
def pyLower (s : Name) : Name := s.map Char.toLower

/-- Does `tok` start the second list?  (Helper for substring search.) -/
def startsWith : Name → Name → Bool
  | [], _ => true
  | _ :: _, [] => false
  | a :: as, b :: bs => a == b && startsWith as bs

/-- Python's `tok in s` substring test. -/
def containsSub (tok : Name) : Name → Bool
  | [] => tok.isEmpty
  | c :: cs => startsWith tok (c :: cs) || containsSub tok cs

/-! ### pandas column model

A column is homogeneous and carries its dtype: `nums` for numeric
(int/float unified as ℚ, `none` = NaN), `strs` for object/string columns,
`times` for datetime columns.  A datetime cell is modelled by its year,
the only projection the verified claims use. -/

inductive PCol
  | nums (vs : List (Option ℚ))
  | strs (vs : List (Option Name))
  | times (vs : List (Option ℤ))
deriving DecidableEq

/-- A DataFrame: ordered named columns. -/
abbrev DF := List (Name × PCol)

def colNames (df : DF) : List Name := df.map (·.1)

/-- `df[n]` for the first column named `n`. -/
def getCol (df : DF) (n : Name) : Option PCol :=
  (df.find? (fun p => p.1 == n)).map (·.2)

def colLen : PCol → Nat
  | .nums vs => vs.length
  | .strs vs => vs.length
  | .times vs => vs.length

def cellIsNull (c : PCol) (i : Nat) : Bool :=
  match c with
  | .nums vs => (vs.getD i none).isNone
  | .strs vs => (vs.getD i none).isNone
  | .times vs => (vs.getD i none).isNone

/-- Restrict a column to the given row positions (in order). -/
def selectRows (keep : List Nat) : PCol → PCol
  | .nums vs => .nums (keep.map (fun i => vs.getD i none))
  | .strs vs => .strs (keep.map (fun i => vs.getD i none))
  | .times vs => .times (keep.map (fun i => vs.getD i none))

def nRows (df : DF) : Nat := df.foldr (fun p m => max (colLen p.2) m) 0

/-! ### Scalar numeric parsing: model of pandas `to_numeric` on strings -/

/-- Decimal value of a digit string. -/
def digitsVal (cs : List Char) : Nat :=
  cs.foldl (fun a c => 10 * a + (c.toNat - 48)) 0

/-- Exponent part after `e`/`E`: optional sign then at least one digit. -/
def parseExpPart (cs : List Char) : Option ℤ :=
  match cs with
  | [] => none
  | '+' :: r =>
    if !r.isEmpty && r.all Char.isDigit then some (digitsVal r : ℤ) else none
  | '-' :: r =>
    if !r.isEmpty && r.all Char.isDigit then some (-(digitsVal r : ℤ)) else none
  | r =>
    if r.all Char.isDigit then some (digitsVal r : ℤ) else none

/-- Mantissa `digits [. digits]` or `. digits`; returns the value and the
unconsumed rest. -/
def parseMantissa (cs : List Char) : Option (ℚ × List Char) :=
  let ip := cs.takeWhile Char.isDigit
  let r1 := cs.dropWhile Char.isDigit
  match r1 with
  | '.' :: r2 =>
    let fp := r2.takeWhile Char.isDigit
    let r3 := r2.dropWhile Char.isDigit
    if ip.isEmpty && fp.isEmpty then none
    else some ((digitsVal ip : ℚ) + (digitsVal fp : ℚ) / (10 : ℚ) ^ fp.length, r3)
  | _ => if ip.isEmpty then none else some ((digitsVal ip : ℚ), r1)

/-- One-cell model of pandas `to_numeric` on a string: `none` means the
parse raises (the `errors="raise"` behaviour), `some none` is a parsed
NaN token, `some (some q)` a number.  Infinity tokens are outside the
rational model and treated as parse errors (no claim involves them). -/
def pyToNumeric (s : Name) : Option (Option ℚ) :=
  let t := pyStrip Char.isWhitespace s
  let signBody : ℚ × List Char :=
    match t with
    | '+' :: r => (1, r)
    | '-' :: r => (-1, r)
    | r => (1, r)
  if pyLower signBody.2 == lit "nan" then some none
  else
    match parseMantissa signBody.2 with
    | none => none
    | some (m, rest) =>
      match rest with
      | [] => some (some (signBody.1 * m))
      | c :: r =>
        if c == 'e' || c == 'E' then
          match parseExpPart r with
          | some z => some (some (signBody.1 * m * (10 : ℚ) ^ z))
          | none => none
        else none

/-- `pd.to_numeric(value, errors="coerce")` for one optional string cell. -/
def coerceNum (s : Name) : Option ℚ :=
  match pyToNumeric s with
  | some (some q) => some q
  | _ => none

/-- `pd.to_numeric(col, errors="coerce")` on a whole column. -/
def toNumericCol : PCol → List (Option ℚ)
  | .nums vs => vs
  | .strs vs => vs.map (fun o => o.bind coerceNum)
  | .times vs => vs.map (fun o => o.map (fun z => (z : ℚ)))

/-! ### `_coerce_numbers_from_str` (analysis_pipeline.py) -/

/-- Python `str.replace(",", ".")`. -/
def commaToDot (s : Name) : Name :=
  s.map (fun c => if c == ',' then '.' else c)

/-- `_coerce_numbers_from_str`.  Input is a string-dtype column.  Note the
probe `pd.to_numeric(sample_norm)` is called without `errors="coerce"`:
it raises (and the whole function returns the column unchanged) as soon
as any sampled value is unparseable, so the `thr` test is reached only
when every sampled value parses, NaN tokens included. -/
def coerceNumbersFromStr (col : List (Option Name)) (thr : ℚ := 4/5) : PCol :=
  let sample := (col.filterMap id).take 200
  if sample.isEmpty then PCol.strs col
  else
    let sampleNorm := sample.map commaToDot
    let probe := sampleNorm.map pyToNumeric
    if probe.any (fun r => r.isNone) then PCol.strs col
    else
      let vals := probe.filterMap id
      if ((vals.filter Option.isSome).length : ℚ) / (vals.length : ℚ) ≥ thr then
        PCol.nums (col.map (fun o => o.bind (fun s => coerceNum (commaToDot s))))
      else PCol.strs col

/-! ### Coordinate resolution (analysis_pipeline.py) -/

def LAT_NAMES : List Name := [lit "lat", lit "latitude"]
def LON_NAMES : List Name := [lit "lon", lit "long", lit "lng", lit "longitude"]
def DATE_KEYWORDS : List Name :=
  [lit "date", lit "pvm", lit "päivä", lit "timestamp", lit "datetime"]

/-- `_is_likely_date`: does the lowercased name contain a date keyword? -/
def isLikelyDate (n : Name) : Bool :=
  DATE_KEYWORDS.any (fun k => containsSub k (pyLower n))

/-- `_find_lat_lon`.  The source guard is `lower_cols in LAT_NAMES`,
where `lower_cols` is the WHOLE list of lowercased column names: a list
is never equal to one of the string tokens, so the guard is `False` for
every column and both `next(..., None)` calls return `None`.  The model
keeps the `find?` shape with that constantly false guard. -/
def findLatLon (names : List Name) : Option Name × Option Name :=
  (names.find? (fun _ => false), names.find? (fun _ => false))

def KKJX_TOKENS : List Name := [lit "kkjx", lit "kkj_x", lit "kkjx_coordinate"]
def KKJY_TOKENS : List Name := [lit "kkjy", lit "kkj_y", lit "kkjy_coordinate"]

/-- `_has_kkj_xy.find_one`: first column whose lowercased name contains
one of the tokens.  (The source iterates over a lower→original dict in
insertion order; with case-colliding names the dict keeps the last
original, a nuance irrelevant here since either choice is a column of the
frame.) -/
def findOneKkj (names : List Name) (toks : List Name) : Option Name :=
  names.find? (fun n => toks.any (fun t => containsSub t (pyLower n)))

def hasKkjXy (names : List Name) : Option Name × Option Name :=
  (findOneKkj names KKJX_TOKENS, findOneKkj names KKJY_TOKENS)

/-- `.where(lambda s: s.between(lo, hi))`: keep in-range values, null the
rest. -/
def rangeFilter (lo hi : ℚ) (vs : List (Option ℚ)) : List (Option ℚ) :=
  vs.map (fun o => o.bind (fun q => if lo ≤ q ∧ q ≤ hi then some q else none))

/-- `_kkj_to_wgs84`, parameterized by the raw pyproj EPSG:2393→4326
transform `tf` (an external library).  Both outputs are range-filtered
exactly as in the source; the all-NaN failure fallback is one possible
`tf`. -/
def kkjToWgs84
    (tf : List (Option ℚ) → List (Option ℚ) → List (Option ℚ) × List (Option ℚ))
    (easting northing : List (Option ℚ)) : List (Option ℚ) × List (Option ℚ) :=
  let p := tf easting northing
  (rangeFilter (-90) 90 p.1, rangeFilter (-180) 180 p.2)

/-! ### Remaining preprocessing steps -/

/-- Computable floor of a rational (`Rat.floor_def` identifies it with
`Int.floor`). -/
def floorQ (q : ℚ) : ℤ := q.num / q.den

lemma floorQ_eq (q : ℚ) : floorQ q = ⌊q⌋ := Rat.floor_def.symm

/-- `np.round(x, 3)`, as round-half-up `⌊x·1000 + 1/2⌋/1000`.  (numpy
rounds half to even; the two agree except at exact half-thousandths,
which no claim involves.) -/
def roundQ3 (q : ℚ) : ℚ := ((floorQ (q * 1000 + 1 / 2) : ℤ) : ℚ) / 1000

def roundCol : PCol → PCol
  | .nums vs => .nums (vs.map (fun o => o.map roundQ3))
  | c => c

def EMPTY_TOKENS : List Name :=
  [lit "", lit " ", lit "-", lit "NA", lit "N/A", lit "nan", lit "NaN"]

/-- `val.strip() in {t.strip() for t in EMPTY_TOKENS}`. -/
def isEmptyTok (s : Name) : Bool :=
  EMPTY_TOKENS.any
    (fun t => pyStrip Char.isWhitespace t == pyStrip Char.isWhitespace s)

/-- `_normalize_empty_strings` on one column (textual columns only). -/
def normalizeEmpty : PCol → PCol
  | .strs vs =>
    .strs (vs.map (fun o => o.bind (fun s => if isEmptyTok s then none else some s)))
  | c => c

/-- `dropna(axis=0, how="all")`: drop rows with no non-null cell. -/
def dropAllNullRows (df : DF) : DF :=
  let keep := (List.range (nRows df)).filter
    (fun i => df.any (fun p => !cellIsNull p.2 i))
  df.map (fun p => (p.1, selectRows keep p.2))

def colAllNull : PCol → Bool
  | .nums vs => vs.all Option.isNone
  | .strs vs => vs.all Option.isNone
  | .times vs => vs.all Option.isNone

/-- `dropna(axis=1, how="all")`: drop columns with no non-null cell
(pandas drops a zero-row column too, since its non-null count is 0). -/
def dropAllNullCols (df : DF) : DF :=
  df.filter (fun p => !colAllNull p.2)

/-- Step 1 of `preprocess_dataframe`: `df.columns = _norm_cols(...)`. -/
def normalizeHeaders (df : DF) : DF :=
  (normCols (colNames df)).zip (df.map (·.2))

/-- Step 2: parse columns with date-like names via `dp`, the model of
`_parse_dates` (pandas `to_datetime`, an external best-effort parser). -/
def parseDateCols (dp : PCol → List (Option ℤ)) (df : DF) : DF :=
  df.map (fun p => if isLikelyDate p.1 then (p.1, PCol.times (dp p.2)) else p)

/-- Step 4: numeric-looking string columns → numbers.  (Step 3, object →
string dtype, is a no-op in this model, which identifies the two.) -/
def coerceNumericCols (df : DF) : DF :=
  df.map (fun p => match p.2 with
    | .strs vs => (p.1, coerceNumbersFromStr vs)
    | _ => p)

/-- Step 5, the `new_cols` dict: named lat/lon (with presence checks) or
unconditional KKJ-derived `latitude`/`longitude`. -/
def coordNewCols
    (tf : List (Option ℚ) → List (Option ℚ) → List (Option ℚ) × List (Option ℚ))
    (df : DF) : DF :=
  let ns := colNames df
  match findLatLon ns with
  | (some latn, some lonn) =>
    let la := rangeFilter (-90) 90
      (toNumericCol ((getCol df latn).getD (PCol.nums [])))
    let lo := rangeFilter (-180) 180
      (toNumericCol ((getCol df lonn).getD (PCol.nums [])))
    (if lit "latitude" ∈ ns then [] else [(lit "latitude", PCol.nums la)]) ++
      (if lit "longitude" ∈ ns then [] else [(lit "longitude", PCol.nums lo)])
  | _ =>
    match hasKkjXy ns with
    | (some kx, some ky) =>
      let p := kkjToWgs84 tf
        (toNumericCol ((getCol df kx).getD (PCol.nums [])))
        (toNumericCol ((getCol df ky).getD (PCol.nums [])))
      [(lit "latitude", PCol.nums p.1), (lit "longitude", PCol.nums p.2)]
    | _ => []

/-- Step 5: `pd.concat([df, pd.DataFrame(new_cols)], axis=1)`. -/
def resolveCoords
    (tf : List (Option ℚ) → List (Option ℚ) → List (Option ℚ) × List (Option ℚ))
    (df : DF) : DF :=
  df ++ coordNewCols tf df

/-- `preprocess_dataframe`.  Parameters: `dp` models `_parse_dates`, `tf`
the raw pyproj transform used by `_kkj_to_wgs84`.  Steps follow the
source: headers, dates, object→string (a model no-op), numeric coercion,
coordinates, rounding, empty-token normalization, dropping all-null rows
then columns. -/
def preprocessDataframe (dp : PCol → List (Option ℤ))
    (tf : List (Option ℚ) → List (Option ℚ) → List (Option ℚ) × List (Option ℚ))
    (df : DF) : DF :=
  let df5 := resolveCoords tf (coerceNumericCols (parseDateCols dp (normalizeHeaders df)))
  let df6 := df5.map (fun p => (p.1, roundCol p.2))
  let df7 := df6.map (fun p => (p.1, normalizeEmpty p.2))
  dropAllNullCols (dropAllNullRows df7)

/-! ### transforms.py -/

/-- `df.iloc[0:0]` on one column: keep the dtype, drop every row. -/
def emptyLike : PCol → PCol
  | .nums _ => .nums []
  | .strs _ => .strs []
  | .times _ => .times []

/-- `subset_to_active` (transforms.py). -/
def subsetToActive (df : DF) (activeCols : List Name)
    (alsoKeep : Option (List Name) := none) : DF :=
  let active := activeCols
  let extra := (alsoKeep.getD []).filter (fun c => (colNames df).contains c)
  let must : List Name :=
    if (colNames df).contains (lit "latitude") &&
        (colNames df).contains (lit "longitude")
    then [lit "latitude", lit "longitude"] else []
  let keep := (colNames df).filter
    (fun c => active.contains c || must.contains c || extra.contains c)
  if keep.isEmpty then df.map (fun p => (p.1, emptyLike p.2))
  else df.filter (fun p => keep.contains p.1)

/-- A year selection coming from the UI: an integer or a string. -/
inductive YSel
  | int (z : ℤ)
  | str (s : Name)
deriving DecidableEq

/-- `IDS.ALL_SENTINEL`. -/
def ALL_SENTINEL : Name := lit "__ALL__"

/-- Python `str(z)` for an integer. -/
def pyStrInt (z : ℤ) : Name :=
  if z < 0 then '-' :: natRepr z.natAbs else natRepr z.natAbs

/-- Python `str(y)` for a year selection. -/
def pyStrY : YSel → Name
  | .int z => pyStrInt z
  | .str s => s

/-- Python `str.isdigit` (ASCII model): nonempty and all digits. -/
def pyIsdigit (s : Name) : Bool := !s.isEmpty && s.all Char.isDigit

/-- Python `int(s)` on a digit string. -/
def pyIntOfDigits (s : Name) : ℤ := (digitsVal s : ℤ)

/-- pandas `astype("Int64")` on a float column: nulls survive as `NA`,
integral values cast, and a single non-integral value raises
`TypeError: cannot safely cast non-equivalent float64 to int64` —
modelled as `none` for the whole cast. -/
def castInt64 (vs : List (Option ℚ)) : Option (List (Option ℤ)) :=
  if vs.all (fun o => match o with
      | none => true
      | some q => q.den == 1) then
    some (vs.map (fun o => o.map (fun q => q.num)))
  else none

/-- `helpers.extract_years` followed by `astype("Int64")`: a datetime
column yields `dt.year` (the modelled year, already integer); anything
else goes through `to_numeric(errors="coerce")` and the raising Int64
cast (`none` = the uncaught `TypeError` on a non-integral float). -/
def extractYears : PCol → Option (List (Option ℤ))
  | .times vs => some vs
  | .nums vs => castInt64 vs
  | .strs vs => castInt64 (vs.map (fun o => o.bind coerceNum))

/-- `df.loc[mask.fillna(False)]`. -/
def filterMask (df : DF) (mask : List Bool) : DF :=
  let keep := (List.range mask.length).filter (fun i => mask.getD i false)
  df.map (fun p => (p.1, selectRows keep p.2))

/-- `apply_year_filter` (transforms.py).  `years=none` models `None`;
the guards follow the source: missing/absent time column or empty
selection → unfiltered; `ALL` sentinel → unfiltered; then selections
whose `str()` is not all digits are silently dropped before the `isin`
membership test.  The result is `none` when the year extraction's Int64
cast raises (non-integral float in the time column); the function has no
try/except, so that exception propagates to the caller. -/
def applyYearFilter (df : DF) (timeCol : Option Name)
    (years : Option (List YSel)) : Option DF :=
  match timeCol, years with
  | some t, some ys =>
    if !(colNames df).contains t then some df
    else if ys.isEmpty then some df
    else if ys.contains (YSel.str ALL_SENTINEL) then some df
    else
      let yrs := ys.filterMap
        (fun y => if pyIsdigit (pyStrY y) then some (pyIntOfDigits (pyStrY y))
          else none)
      match extractYears ((getCol df t).getD (PCol.nums [])) with
      | none => none
      | some yearS =>
        let mask := yearS.map
          (fun o => match o with
            | some z => yrs.contains z
            | none => false)
        some (filterMask df mask)
  | _, _ => some df

/-! ### figures.py: histogram bin count -/

/-- Floor square root, `int(np.sqrt(n))`: the largest `k ≤ n` with
`k·k ≤ n`. -/
def intSqrt (n : Nat) : Nat :=
  (List.range (n + 1)).foldl (fun a k => if k * k ≤ n then k else a) 0

/-- The bin selection of `build_hist` on an (already numeric-coerced)
column: drop non-finite values, return `none` when nothing remains (the
source falls back to an empty figure), else
`max(5, min(60, int(sqrt(len(s))), n_unique))`. -/
def buildHistNbins (vs : List (Option ℚ)) : Option Nat :=
  let s := vs.filterMap id
  if s.isEmpty then none
  else some (max 5 (min 60 (min (intSqrt s.length) s.dedup.length)))

/-! ### column_classifier.py -/

/-- A cell of an arbitrary (possibly object-dtype) column: null, native
boolean, integer, float (as ℚ) or string. -/
inductive CVal
  | null
  | bool (b : Bool)
  | int (z : ℤ)
  | float (q : ℚ)
  | str (s : Name)
deriving DecidableEq

/-- `CAT_RULES`, in source order: category, `contains_any` tokens,
`whole_word` tokens. -/
def CAT_RULES : List (Name × List Name × List Name) :=
  [(lit "Time",
    [lit "date", lit "time", lit "aika", lit "päivä", lit "kuukausi",
     lit "viikko", lit "vmi", lit "vuosi", lit "timestamp", lit "datetime",
     lit "created", lit "modified"],
    [lit "pvm", lit "pp", lit "dd", lit "kk", lit "mm", lit "yyyy",
     lit "vvvv", lit "vko"]),
   (lit "Coordinates",
    [lit "lat", lit "latitude", lit "lon", lit "long", lit "lng",
     lit "longitude", lit "koord", lit "coord", lit "x_", lit "y_"],
    [lit "x", lit "y"]),
   (lit "Boolean-like", [], []),
   (lit "Region or area",
    [lit "maakunta", lit "region", lit "county", lit "province",
     lit "country", lit "block", lit "stand", lit "plot", lit "pinta-ala",
     lit "area", lit "pinta_ala"],
    [lit "site"]),
   (lit "Species", [lit "species"], [lit "puulaji"]),
   (lit "Site type",
    [lit "metsätyypp", lit "metsa", lit "forest type", lit "site",
     lit "soil", lit "maaperä", lit "ground type"],
    [lit "site.type", lit "site_type", lit "maan_laji", lit "maalaji",
     lit "maa_laji"]),
   (lit "Counts",
    [lit "count", lit "number", lit "quantity", lit "määrä",
     lit "lukumäärä", lit "no_", lit "lkm", lit "kpl", lit "qty"],
    []),
   (lit "Lengths",
    [lit "length", lit "pituus", lit "height", lit "korkeus",
     lit "diameter", lit "läpimitta"],
    [])]

def TRUE_SET : List Name :=
  [lit "1", lit "true", lit "yes", lit "y", lit "t", lit "on", lit "kyllä"]
def FALSE_SET : List Name :=
  [lit "0", lit "false", lit "no", lit "n", lit "f", lit "off", lit "ei"]

/-- `_match_category`: substring match on `contains_any`, then exact
match on `whole_word`, against the stripped lowercased name. -/
def matchCategory (colname : Name) (ca ww : List Name) : Bool :=
  let name := pyLower (pyStrip Char.isWhitespace colname)
  ca.any (fun w => containsSub (pyLower w) name) ||
    ww.any (fun w => pyLower w == name)

/-- `_map_to_01`: map one value to 0/1, `none` when it is not a clear
boolean token.  (The string branch applies `str(value).strip().lower()`;
only `CVal.str` cells reach it in this model.) -/
def mapTo01 : CVal → Option Nat
  | .null => none
  | .bool b => some (if b then 1 else 0)
  | .int z => if z = 1 then some 1 else if z = 0 then some 0 else none
  | .float q =>
    if q.den = 1 ∧ (q = 0 ∨ q = 1) then some q.num.toNat else none
  | .str s =>
    let t := pyLower (pyStrip Char.isWhitespace s)
    if TRUE_SET.contains t then some 1
    else if FALSE_SET.contains t then some 0
    else if t == lit "0" then some 0
    else if t == lit "1" then some 1
    else none

def isNA : CVal → Bool
  | .null => true
  | _ => false

/-- `is_boolean_like`: every non-null value maps to 0/1.  The bool-dtype
fast path of the source is subsumed: `_map_to_01` maps native booleans
to 0/1, so the extension is unchanged.  The final `unique ⊆ {0,1}` check
of the source is kept although it is always satisfied. -/
def isBooleanLike (vals : List CVal) : Bool :=
  if vals.isEmpty then false
  else if (vals.filter (fun v => !isNA v)).isEmpty then false
  else
    ((vals.filter (fun v => !isNA v)).map mapTo01).all Option.isSome &&
      (((vals.filter (fun v => !isNA v)).map mapTo01).filterMap id).dedup.all
        (fun x => x == 0 || x == 1)

/-- First matching name rule in `CAT_RULES` order, skipping
"Boolean-like" exactly as the loop in `categorize_columns` does. -/
def firstNameRule (colname : Name) : Option Name :=
  (CAT_RULES.find?
    (fun r => !(r.1 == lit "Boolean-like") && matchCategory colname r.2.1 r.2.2)).map
    (·.1)

/-- Dtype fallback of `categorize_columns` (approximation of pandas
dtype inference on the modelled homogeneous columns; unreachable for the
claims proved about named columns). -/
def fallbackCat (vals : List CVal) : Name :=
  if vals.any (fun v => !isNA v) &&
      vals.all (fun v => match v with
        | .null | .int _ | .float _ => true
        | _ => false) then lit "Numeric"
  else if vals.all (fun v => match v with
        | .null | .str _ => true
        | _ => false) then lit "Text"
  else lit "Other"

/-- The per-column body of `categorize_columns`: name rules first
(first match wins), then content-based boolean detection, then dtype
buckets. -/
def assignCategory (colname : Name) (vals : List CVal) : Name :=
  match firstNameRule colname with
  | some cat => cat
  | none =>
    if isBooleanLike vals then lit "Boolean-like" else fallbackCat vals

/-- `categorize_columns`: category → member columns, keeping only
non-empty categories in the fixed category order. -/
def categorizeColumns (df : List (Name × List CVal)) :
    List (Name × List Name) :=
  let cats := CAT_RULES.map (·.1) ++ [lit "Numeric", lit "Text", lit "Other"]
  (cats.map (fun cat =>
    (cat, (df.filter (fun p => assignCategory p.1 p.2 == cat)).map (·.1)))).filter
    (fun p => !p.2.isEmpty)

/-- The boolean-token shape named by the specification: native boolean,
integer exactly 0/1, float exactly 0.0/1.0, or a string whose normalized
form is in the fixed true/false token sets. -/
def specBoolToken : CVal → Bool
  | .null => false
  | .bool _ => true
  | .int z => z == 0 || z == 1
  | .float q => q == 0 || q == 1
  | .str s =>
    TRUE_SET.contains (pyLower (pyStrip Char.isWhitespace s)) ||
      FALSE_SET.contains (pyLower (pyStrip Char.isWhitespace s))

/-! ### Concrete fixtures used by the evaluation theorems -/

/-- Trivial date-parser instantiation (no fixture has date-like names). -/
def dpNone : PCol → List (Option ℤ) := fun _ => []

/-- Transform instantiation mapping everything to null (the `_kkj_to_wgs84`
failure fallback). -/
def tfNone : List (Option ℚ) → List (Option ℚ) → List (Option ℚ) × List (Option ℚ) :=
  fun a b => (a.map (fun _ => none), b.map (fun _ => none))

/-- Transform instantiation standing for pyproj output at an in-range
Finnish location (≈60°N, 25°E). -/
def tfConst : List (Option ℚ) → List (Option ℚ) → List (Option ℚ) × List (Option ℚ) :=
  fun a b => (a.map (fun _ => some 60), b.map (fun _ => some 25))

/-- A table with exactly the named columns `lat`, `lon` holding valid
coordinates. -/
def dfLatLon : DF := [(lit "lat", .nums [some 60]), (lit "lon", .nums [some 25])]

/-- A table that already carries `latitude`/`longitude` columns whose
nulls are not paired. -/
def dfUnpaired : DF :=
  [(lit "latitude", .nums [some 60, none]),
   (lit "longitude", .nums [none, some 25])]

/-- A table with a `latitude` column alongside KKJ coordinate columns. -/
def dfLatPlusKkj : DF :=
  [(lit "latitude", .nums [some 60]),
   (lit "kkjx", .nums [some 3500000]),
   (lit "kkjy", .nums [some 6700000])]

/-- A KKJ-only table. -/
def dfKkjOnly : DF := [(lit "kkjx", .nums [some 1]), (lit "kkjy", .nums [some 2])]

/-- The value list of a numeric column (empty for other dtypes). -/
def numVals : PCol → List (Option ℚ)
  | .nums vs => vs
  | _ => []

/-- The values of the first column named `n` when it is numeric. -/
def numsOf (df : DF) (n : Name) : List (Option ℚ) :=
  numVals ((getCol df n).getD (PCol.strs []))

/-- The 90%-numeric string column of C4. -/
def mixedNumericCol : List (Option Name) :=
  ["1", "2", "3", "4", "5", "6", "7", "8", "9", "abc"].map (fun s => some (lit s))

/-! ### Helper lemmas about the pipeline -/

lemma findLatLon_none (ns : List Name) : findLatLon ns = (none, none) := by
  simp [findLatLon]

lemma colNames_map_fst {f : Name × PCol → Name × PCol}
    (h : ∀ p, (f p).1 = p.1) (df : DF) : colNames (df.map f) = colNames df := by
  simp only [colNames, List.map_map]
  exact List.map_congr_left (fun p _ => h p)

lemma colNames_parseDateCols (dp : PCol → List (Option ℤ)) (df : DF) :
    colNames (parseDateCols dp df) = colNames df :=
  colNames_map_fst (fun p => by by_cases h : isLikelyDate p.1 <;> simp [h]) df

lemma colNames_coerceNumericCols (df : DF) :
    colNames (coerceNumericCols df) = colNames df :=
  colNames_map_fst (fun p => by obtain ⟨n, c⟩ := p; cases c <;> rfl) df

lemma colNames_normalizeHeaders (df : DF) :
    colNames (normalizeHeaders df) = normCols (colNames df) := by
  rw [normalizeHeaders, colNames, List.map_fst_zip]
  rw [normCols, uniquify_length, colNames]
  simp

/-- The columns produced by the coordinate-resolution step: named
`latitude`/`longitude`, and numeric with the corresponding range filter
already applied. -/
lemma coordNewCols_shape
    (tf : List (Option ℚ) → List (Option ℚ) → List (Option ℚ) × List (Option ℚ))
    (df : DF) :
    ∀ p ∈ coordNewCols tf df,
      (p.1 = lit "latitude" ∧ ∃ xs, p.2 = PCol.nums (rangeFilter (-90) 90 xs)) ∨
      (p.1 = lit "longitude" ∧ ∃ xs, p.2 = PCol.nums (rangeFilter (-180) 180 xs)) := by
  intro p hp
  unfold coordNewCols at hp
  simp only [findLatLon_none] at hp
  rcases hk : hasKkjXy (colNames df) with ⟨a, b⟩
  rw [hk] at hp
  cases a with
  | none => simp at hp
  | some kx =>
    cases b with
    | none => simp at hp
    | some ky =>
      simp only [List.mem_cons, List.not_mem_nil, or_false] at hp
      rcases hp with hp | hp
      · left
        rw [hp]
        exact ⟨rfl, _, rfl⟩
      · right
        rw [hp]
        exact ⟨rfl, _, rfl⟩

lemma rangeFilter_bounds {lo hi q : ℚ} {xs : List (Option ℚ)}
    (h : some q ∈ rangeFilter lo hi xs) : lo ≤ q ∧ q ≤ hi := by
  rw [rangeFilter, List.mem_map] at h
  obtain ⟨o, _, ho⟩ := h
  cases o with
  | none => simp at ho
  | some q' =>
    have ho' : (if lo ≤ q' ∧ q' ≤ hi then some q' else none) = some q := ho
    split at ho'
    · injection ho' with ho''
      rw [← ho'']
      assumption
    · exact absurd ho' (by simp)

lemma roundQ3_bounds (a b : ℤ) (q : ℚ) (h1 : (a : ℚ) ≤ q) (h2 : q ≤ (b : ℚ)) :
    (a : ℚ) ≤ roundQ3 q ∧ roundQ3 q ≤ (b : ℚ) := by
  have e : roundQ3 q = ((⌊q * 1000 + 1 / 2⌋ : ℤ) : ℚ) / 1000 := by
    rw [roundQ3, floorQ_eq]
  have hlow : (a * 1000 : ℤ) ≤ ⌊q * 1000 + 1 / 2⌋ := by
    have hc : ((a * 1000 : ℤ) : ℚ) ≤ q * 1000 + 1 / 2 := by
      push_cast
      linarith
    calc (a * 1000 : ℤ) = ⌊((a * 1000 : ℤ) : ℚ)⌋ := (Int.floor_intCast _).symm
      _ ≤ ⌊q * 1000 + 1 / 2⌋ := Int.floor_mono hc
  have hhigh : ⌊q * 1000 + 1 / 2⌋ < b * 1000 + 1 := by
    apply Int.floor_lt.mpr
    push_cast
    linarith
  constructor
  · rw [e]
    have hc : ((a * 1000 : ℤ) : ℚ) ≤ ((⌊q * 1000 + 1 / 2⌋ : ℤ) : ℚ) :=
      Int.cast_le.mpr hlow
    push_cast at hc
    linarith
  · rw [e]
    have hb : ⌊q * 1000 + 1 / 2⌋ ≤ b * 1000 := by omega
    have hc : ((⌊q * 1000 + 1 / 2⌋ : ℤ) : ℚ) ≤ ((b * 1000 : ℤ) : ℚ) :=
      Int.cast_le.mpr hb
    push_cast at hc
    linarith

lemma mem_numsOf {df : DF} {n : Name} {q : ℚ} (h : some q ∈ numsOf df n) :
    ∃ p ∈ df, p.1 = n ∧ some q ∈ numVals p.2 := by
  unfold numsOf at h
  cases hg : getCol df n with
  | none => rw [hg] at h; simp [numVals] at h
  | some c =>
    rw [hg] at h
    unfold getCol at hg
    rw [Option.map_eq_some'] at hg
    obtain ⟨pr, hfind, hc⟩ := hg
    have hmem := List.mem_of_find?_eq_some hfind
    have hpred := List.find?_some hfind
    have hname : pr.1 = n := by simpa using hpred
    exact ⟨pr, hmem, hname, by rw [hc]; exact h⟩

lemma getD_some_mem {l : List (Option ℚ)} {i : Nat} {q : ℚ}
    (h : l.getD i none = some q) : some q ∈ l := by
  rw [List.getD_eq_getElem?_getD] at h
  cases hg : l[i]? with
  | none => rw [hg] at h; simp at h
  | some x =>
    rw [hg] at h
    simp only [Option.getD_some] at h
    rw [← h]
    exact List.getElem?_mem hg

lemma numVals_selectRows {keep : List Nat} {c : PCol} {q : ℚ}
    (h : some q ∈ numVals (selectRows keep c)) : some q ∈ numVals c := by
  cases c with
  | nums vs =>
    simp only [selectRows, numVals, List.mem_map] at h
    obtain ⟨i, _, hi⟩ := h
    exact getD_some_mem hi
  | strs vs => simp [selectRows, numVals] at h
  | times vs => simp [selectRows, numVals] at h

lemma numVals_normalizeEmpty (c : PCol) :
    numVals (normalizeEmpty c) = numVals c := by
  cases c <;> rfl

lemma numVals_roundCol {c : PCol} {q : ℚ}
    (h : some q ∈ numVals (roundCol c)) :
    ∃ q' : ℚ, some q' ∈ numVals c ∧ q = roundQ3 q' := by
  cases c with
  | nums vs =>
    simp only [roundCol, numVals, List.mem_map] at h
    obtain ⟨o, ho, hoq⟩ := h
    rw [Option.map_eq_some'] at hoq
    obtain ⟨q', hq', hround⟩ := hoq
    exact ⟨q', by rw [← hq']; exact ho, hround.symm⟩
  | strs vs => simp [roundCol, numVals] at h
  | times vs => simp [roundCol, numVals] at h

/-- Provenance of a numeric value in the preprocessed frame: it is the
rounding of a value of the column of the same name present right after
the coordinate-resolution step. -/
lemma preprocess_values {dp : PCol → List (Option ℤ)}
    {tf : List (Option ℚ) → List (Option ℚ) → List (Option ℚ) × List (Option ℚ)}
    {df : DF} {n : Name} {q : ℚ}
    (h : some q ∈ numsOf (preprocessDataframe dp tf df) n) :
    ∃ p ∈ resolveCoords tf (coerceNumericCols (parseDateCols dp (normalizeHeaders df))),
      p.1 = n ∧ ∃ q' : ℚ, some q' ∈ numVals p.2 ∧ q = roundQ3 q' := by
  obtain ⟨pr, hpr, hname, hqv⟩ := mem_numsOf h
  unfold preprocessDataframe dropAllNullCols at hpr
  have hpr2 := List.mem_of_mem_filter hpr
  unfold dropAllNullRows at hpr2
  rw [List.mem_map] at hpr2
  obtain ⟨p7, hp7, hpr7⟩ := hpr2
  rw [List.mem_map] at hp7
  obtain ⟨p6, hp6, hp76⟩ := hp7
  rw [List.mem_map] at hp6
  obtain ⟨p5, hp5, hp65⟩ := hp6
  subst hpr7
  subst hp76
  subst hp65
  refine ⟨p5, hp5, hname, ?_⟩
  have step1 : some q ∈
      numVals (normalizeEmpty (roundCol p5.2)) := numVals_selectRows hqv
  rw [numVals_normalizeEmpty] at step1
  exact numVals_roundCol step1

lemma colNames_append (a b : DF) :
    colNames (a ++ b) = colNames a ++ colNames b := by
  simp [colNames]

lemma colNames_resolve_eq (dp : PCol → List (Option ℤ)) (df : DF) :
    colNames (coerceNumericCols (parseDateCols dp (normalizeHeaders df))) =
      normCols (colNames df) := by
  rw [colNames_coerceNumericCols, colNames_parseDateCols, colNames_normalizeHeaders]

/-! ### The claims -/

/-- C1: `_find_lat_lon` tests `lower_cols in LAT_NAMES`, comparing the
whole lowered-name list with each token, so it never finds the named
latitude/longitude columns: a table with columns named exactly `lat` and
`lon` holding valid coordinates passes through `preprocess_dataframe`
without gaining `latitude`/`longitude` columns, contradicting the claim
(and the function's own docstring). -/
theorem c1_named_lat_lon_never_found :
    (∀ ns : List Name, findLatLon ns = (none, none)) ∧
    colNames (preprocessDataframe dpNone tfNone dfLatLon) =
      [lit "lat", lit "lon"] ∧
    (colNames (preprocessDataframe dpNone tfNone dfLatLon)).contains
      (lit "latitude") = false ∧
    (colNames (preprocessDataframe dpNone tfNone dfLatLon)).contains
      (lit "longitude") = false :=
  ⟨findLatLon_none, by decide, by decide, by decide⟩

/-- C2 counterexample: a table whose `latitude`/`longitude` columns are
already present passes through preprocessing untouched, so row 0 ends
with a non-null latitude and a null longitude — the coordinates are not
invalidated as a pair. -/
theorem c2_counterexample :
    colNames (preprocessDataframe dpNone tfNone dfUnpaired) =
      [lit "latitude", lit "longitude"] ∧
    (getCol (preprocessDataframe dpNone tfNone dfUnpaired) (lit "latitude")).map
        (fun c => cellIsNull c 0) = some false ∧
    (getCol (preprocessDataframe dpNone tfNone dfUnpaired) (lit "longitude")).map
        (fun c => cellIsNull c 0) = some true :=
  ⟨by decide, by decide, by decide⟩

/-- C2 (amended): the coordinate columns added by preprocessing are each
independently range-invalidated — every value of an added `latitude`
column is null or in [-90, 90], and of an added `longitude` column null
or in [-180, 180] — but nulls are not paired across the two columns. -/
theorem c2_added_coordinates_range_invalidated
    (dp : PCol → List (Option ℤ))
    (tf : List (Option ℚ) → List (Option ℚ) → List (Option ℚ) × List (Option ℚ))
    (df : DF) :
    ((lit "latitude") ∉ normCols (colNames df) →
      ∀ q : ℚ, some q ∈ numsOf (preprocessDataframe dp tf df) (lit "latitude") →
        -90 ≤ q ∧ q ≤ 90) ∧
    ((lit "longitude") ∉ normCols (colNames df) →
      ∀ q : ℚ, some q ∈ numsOf (preprocessDataframe dp tf df) (lit "longitude") →
        -180 ≤ q ∧ q ≤ 180) := by
  constructor
  · intro hnot q hq
    obtain ⟨p5, hp5, hfst, q', hq', hround⟩ := preprocess_values hq
    unfold resolveCoords at hp5
    rcases List.mem_append.mp hp5 with hmem | hmem
    · exfalso
      apply hnot
      rw [← colNames_resolve_eq dp df, ← hfst]
      exact List.mem_map_of_mem _ hmem
    · rcases coordNewCols_shape tf _ p5 hmem with ⟨_, xs, hxs⟩ | ⟨habs, _⟩
      · rw [hxs] at hq'
        have hb := rangeFilter_bounds hq'
        have hr := roundQ3_bounds (-90) 90 q'
          (by exact_mod_cast hb.1) (by exact_mod_cast hb.2)
        rw [hround]
        constructor
        · exact_mod_cast hr.1
        · exact_mod_cast hr.2
      · rw [hfst] at habs
        exact absurd habs (by decide)
  · intro hnot q hq
    obtain ⟨p5, hp5, hfst, q', hq', hround⟩ := preprocess_values hq
    unfold resolveCoords at hp5
    rcases List.mem_append.mp hp5 with hmem | hmem
    · exfalso
      apply hnot
      rw [← colNames_resolve_eq dp df, ← hfst]
      exact List.mem_map_of_mem _ hmem
    · rcases coordNewCols_shape tf _ p5 hmem with ⟨habs, _⟩ | ⟨_, xs, hxs⟩
      · rw [hfst] at habs
        exact absurd habs (by decide)
      · rw [hxs] at hq'
        have hb := rangeFilter_bounds hq'
        have hr := roundQ3_bounds (-180) 180 q'
          (by exact_mod_cast hb.1) (by exact_mod_cast hb.2)
        rw [hround]
        constructor
        · exact_mod_cast hr.1
        · exact_mod_cast hr.2

/-- C2 witness: on a KKJ-only table with an in-range transform, a
`latitude` column is actually added (one row, non-null), and the amended
theorem applies to it. -/
theorem c2_added_coordinates_witness :
    (lit "latitude") ∉ normCols (colNames dfKkjOnly) ∧
    (∀ q : ℚ,
      some q ∈ numsOf (preprocessDataframe dpNone tfConst dfKkjOnly) (lit "latitude") →
        -90 ≤ q ∧ q ≤ 90) ∧
    (numsOf (preprocessDataframe dpNone tfConst dfKkjOnly) (lit "latitude")).length = 1 ∧
    (getCol (preprocessDataframe dpNone tfConst dfKkjOnly) (lit "latitude")).map
        (fun c => cellIsNull c 0) = some false :=
  ⟨by decide,
    fun q hq =>
      (c2_added_coordinates_range_invalidated dpNone tfConst dfKkjOnly).1
        (by decide) q hq,
    by decide, by decide⟩

/-- C3: on a numeric column with exactly three distinct finite values the
histogram uses `max(5, min(60, sqrt, n_unique))` = 5 bins, not the 3 the
specification (and the source comment "not more than unique values")
promises: the `max(5, ...)` is applied after the unique-count cap. -/
theorem c3_hist_bins_three_distinct :
    buildHistNbins [some 1, some 2, some 3] = some 5 :=
  by decide

/-- C4: a string column whose sample is 90% numeric ("1".."9" and one
"abc") is NOT converted: the probe `pd.to_numeric(sample)` is called
without `errors="coerce"`, so the single unparseable value raises and the
column is returned as text unchanged, contradicting the documented
0.8-threshold behaviour. -/
theorem c4_mixed_column_not_converted :
    coerceNumbersFromStr mixedNumericCol = PCol.strs mixedNumericCol ∧
    pyToNumeric (lit "abc") = none ∧
    ((mixedNumericCol.filterMap id).filter
      (fun s => (pyToNumeric s).isSome)).length = 9 ∧
    (mixedNumericCol.filterMap id).length = 10 :=
  ⟨by decide, by decide, by decide, by decide⟩

/-- C5 counterexample: when nothing survives the selection,
`subset_to_active` returns `df.iloc[0:0]` — zero rows but all original
columns retained, not "a zero-row table with no columns". -/
theorem c5_counterexample :
    subsetToActive [(lit "a", PCol.nums [some 1])] [] none =
      [(lit "a", PCol.nums [])] ∧
    colNames (subsetToActive [(lit "a", PCol.nums [some 1])] [] none) =
      [lit "a"] :=
  ⟨by decide, by decide⟩

/-- The column-selection predicate the specification describes: in the
active set, or latitude/longitude when both are present, or in the
alsoKeep list (and present in the table). -/
def keepSpec (df : DF) (active : List Name) (alsoKeep : Option (List Name))
    (n : Name) : Bool :=
  active.contains n ||
    ((colNames df).contains (lit "latitude") &&
      (colNames df).contains (lit "longitude") &&
      (n == lit "latitude" || n == lit "longitude")) ||
    ((alsoKeep.getD []).contains n && (colNames df).contains n)

lemma contains_filter (l : List Name) (p : Name → Bool) (n : Name) :
    (l.filter p).contains n = (l.contains n && p n) := by
  simp only [List.contains, List.elem_eq_mem, List.mem_filter]
  by_cases h1 : n ∈ l <;> by_cases h2 : p n = true <;> simp [h1, h2]

/-- C5 (amended): `subset_to_active` keeps exactly the table's columns
selected by `keepSpec`; when none is selected it returns a zero-row table
that retains every original column (with its dtype), not an empty
column set. -/
theorem c5_subset_to_active_amended (df : DF) (active : List Name)
    (ak : Option (List Name)) :
    subsetToActive df active ak =
      if (colNames df).any (keepSpec df active ak) then
        df.filter (fun p => keepSpec df active ak p.1)
      else df.map (fun p => (p.1, emptyLike p.2)) := by
  have hmust : ∀ n : Name,
      (if (colNames df).contains (lit "latitude") &&
          (colNames df).contains (lit "longitude") then
        [lit "latitude", lit "longitude"] else ([] : List Name)).contains n =
      ((colNames df).contains (lit "latitude") &&
        (colNames df).contains (lit "longitude") &&
        (n == lit "latitude" || n == lit "longitude")) := by
    intro n
    by_cases h : ((colNames df).contains (lit "latitude") &&
        (colNames df).contains (lit "longitude")) = true
    · rw [if_pos h, h]
      by_cases h1 : n = lit "latitude" <;> by_cases h2 : n = lit "longitude" <;>
        simp [List.contains_cons, h1, h2]
    · rw [if_neg h]
      rw [Bool.not_eq_true] at h
      rw [h]
      rfl
  have hcond : ∀ c ∈ colNames df,
      (active.contains c ||
        (if (colNames df).contains (lit "latitude") &&
            (colNames df).contains (lit "longitude") then
          [lit "latitude", lit "longitude"] else ([] : List Name)).contains c ||
        ((ak.getD []).filter (fun x => (colNames df).contains x)).contains c) =
      keepSpec df active ak c := by
    intro c _
    rw [hmust, contains_filter, keepSpec]
  simp only [subsetToActive]
  rw [List.filter_congr hcond]
  by_cases hany : (colNames df).any (keepSpec df active ak) = true
  · rw [if_pos hany]
    have hne : ((colNames df).filter (keepSpec df active ak)).isEmpty = false := by
      rw [List.isEmpty_eq_false]
      rw [List.any_eq_true] at hany
      obtain ⟨c, hc, hkc⟩ := hany
      intro habs
      rw [List.filter_eq_nil_iff] at habs
      exact habs c hc hkc
    rw [hne]
    simp only [Bool.false_eq_true, if_false]
    refine List.filter_congr ?_
    intro p hp
    rw [contains_filter]
    have : (colNames df).contains p.1 = true := by
      simp only [List.contains, List.elem_eq_mem, decide_eq_true_eq]
      exact List.mem_map_of_mem _ hp
    rw [this, Bool.true_and]
  · rw [if_neg hany]
    rw [Bool.not_eq_true] at hany
    have hnil : ((colNames df).filter (keepSpec df active ak)).isEmpty = true := by
      rw [List.isEmpty_eq_true, List.filter_eq_nil_iff]
      intro c hc
      rw [List.any_eq_false] at hany
      exact hany c hc
    rw [hnil]
    simp

/-- C6 counterexample: the KKJ branch adds `latitude`/`longitude` without
a presence check, so a table that already has a `latitude` column next to
KKJ coordinate columns comes out with TWO columns named `latitude`. -/
theorem c6_counterexample :
    colNames (preprocessDataframe dpNone tfConst dfLatPlusKkj) =
      [lit "latitude", lit "kkjx", lit "kkjy", lit "latitude", lit "longitude"] ∧
    (colNames (preprocessDataframe dpNone tfConst dfLatPlusKkj)).count
      (lit "latitude") = 2 ∧
    (colNames dfLatPlusKkj).count (lit "latitude") = 1 :=
  ⟨by decide, by decide, by decide⟩

/-- C6 (amended): every output column of `preprocess_dataframe` is either
an input column (after header normalization) or named
`latitude`/`longitude`; the named branch adds them only when absent, but
the KKJ branch adds them unconditionally, so a duplicate name can
appear. -/
theorem c6_output_columns_amended (dp : PCol → List (Option ℤ))
    (tf : List (Option ℚ) → List (Option ℚ) → List (Option ℚ) × List (Option ℚ))
    (df : DF) :
    (colNames (preprocessDataframe dp tf df)).all
      (fun n => (normCols (colNames df)).contains n ||
        n == lit "latitude" || n == lit "longitude") = true := by
  rw [List.all_eq_true]
  intro n hn
  have hn5 : n ∈ colNames
      (resolveCoords tf (coerceNumericCols (parseDateCols dp (normalizeHeaders df)))) := by
    unfold preprocessDataframe dropAllNullCols at hn
    rw [colNames] at hn
    rw [List.mem_map] at hn
    obtain ⟨p, hp, rfl⟩ := hn
    have hp2 := List.mem_of_mem_filter hp
    unfold dropAllNullRows at hp2
    rw [List.mem_map] at hp2
    obtain ⟨p7, hp7, hpr⟩ := hp2
    rw [List.mem_map] at hp7
    obtain ⟨p6, hp6, hp76⟩ := hp7
    rw [List.mem_map] at hp6
    obtain ⟨p5, hp5, hp65⟩ := hp6
    subst hpr
    subst hp76
    subst hp65
    have hin := List.mem_map_of_mem (fun x : Name × PCol => x.1) hp5
    exact hin
  unfold resolveCoords at hn5
  rw [colNames_append, List.mem_append] at hn5
  rcases hn5 with hmem | hmem
  · rw [colNames_resolve_eq dp df] at hmem
    have : (normCols (colNames df)).contains n = true := by
      simp only [List.contains, List.elem_eq_mem, decide_eq_true_eq]
      exact hmem
    rw [this]
    rfl
  · rw [colNames, List.mem_map] at hmem
    obtain ⟨p, hp, rfl⟩ := hmem
    rcases coordNewCols_shape tf _ p hp with ⟨h1, _⟩ | ⟨h1, _⟩ <;>
      simp [h1]

/-- C6 witness: the amended subset property evaluated on the duplicate
counterexample table. -/
theorem c6_output_columns_witness :
    (colNames (preprocessDataframe dpNone tfConst dfLatPlusKkj)).all
      (fun n => (normCols (colNames dfLatPlusKkj)).contains n ||
        n == lit "latitude" || n == lit "longitude") = true :=
  c6_output_columns_amended dpNone tfConst dfLatPlusKkj

/-- C8: in `categorize_columns` the name rules are evaluated in the fixed
`CAT_RULES` order with first match winning; the rule list places "Region
or area" (whole word `site`) before "Site type" (substring `site`), both
of which match a column literally named `site`, so such a column is
always classified "Region or area" and never "Site type" — whatever its
values. -/
theorem c8_site_always_region_or_area :
    (∀ vals : List CVal, assignCategory (lit "site") vals = lit "Region or area") ∧
    (∀ vals : List CVal,
      (assignCategory (lit "site") vals == lit "Site type") = false) ∧
    (CAT_RULES.getD 3 (lit "", [], [])).1 = lit "Region or area" ∧
    (CAT_RULES.getD 5 (lit "", [], [])).1 = lit "Site type" ∧
    matchCategory (lit "site") (CAT_RULES.getD 3 (lit "", [], [])).2.1
      (CAT_RULES.getD 3 (lit "", [], [])).2.2 = true ∧
    matchCategory (lit "site") (CAT_RULES.getD 5 (lit "", [], [])).2.1
      (CAT_RULES.getD 5 (lit "", [], [])).2.2 = true :=
  ⟨fun _ => rfl, fun _ => rfl, by decide, by decide, by decide, by decide⟩

/-! ### C9 machinery -/

lemma mapTo01_isSome (v : CVal) : (mapTo01 v).isSome = specBoolToken v := by
  cases v with
  | null => rfl
  | bool b => rfl
  | int z =>
    by_cases h1 : z = 1
    · simp [mapTo01, specBoolToken, h1]
    · by_cases h0 : z = 0 <;> simp [mapTo01, specBoolToken, h1, h0]
  | float q =>
    by_cases h0 : q = 0
    · subst h0
      simp [mapTo01, specBoolToken]
    · by_cases h1 : q = 1
      · subst h1
        simp [mapTo01, specBoolToken]
      · simp [mapTo01, specBoolToken, h0, h1]
  | str s =>
    by_cases hT : pyLower (pyStrip Char.isWhitespace s) ∈ TRUE_SET
    · simp [mapTo01, specBoolToken, List.contains, List.elem_eq_mem, hT]
    · by_cases hF : pyLower (pyStrip Char.isWhitespace s) ∈ FALSE_SET
      · simp [mapTo01, specBoolToken, List.contains, List.elem_eq_mem, hT, hF]
      · have h0 : pyLower (pyStrip Char.isWhitespace s) ≠ lit "0" := by
          intro habs
          exact hF (habs ▸ (by decide : lit "0" ∈ FALSE_SET))
        have h1 : pyLower (pyStrip Char.isWhitespace s) ≠ lit "1" := by
          intro habs
          exact hT (habs ▸ (by decide : lit "1" ∈ TRUE_SET))
        simp [mapTo01, specBoolToken, List.contains, List.elem_eq_mem,
          hT, hF, h0, h1]

lemma mapTo01_val {v : CVal} {x : Nat} (h : mapTo01 v = some x) :
    x = 0 ∨ x = 1 := by
  cases v with
  | null => exact absurd h (by simp [mapTo01])
  | bool b =>
    cases b
    · left; simpa [mapTo01] using h.symm
    · right; simpa [mapTo01] using h.symm
  | int z =>
    rw [mapTo01] at h
    split at h
    · right; injection h with h'; omega
    · split at h
      · left; injection h with h'; omega
      · exact absurd h (by simp)
  | float q =>
    rw [mapTo01] at h
    split at h
    · rename_i hcond
      injection h with h'
      rcases hcond.2 with h0 | h1
      · left
        rw [← h', h0]
        rfl
      · right
        rw [← h', h1]
        rfl
    · exact absurd h (by simp)
  | str s =>
    rw [mapTo01] at h
    split at h
    · right; injection h with h'; omega
    · split at h
      · left; injection h with h'; omega
      · split at h
        · left; injection h with h'; omega
        · split at h
          · right; injection h with h'; omega
          · exact absurd h (by simp)

lemma isBooleanLike_iff (vals : List CVal) :
    isBooleanLike vals = true ↔
      (vals.any (fun v => !isNA v) = true ∧
        vals.all (fun v => isNA v || specBoolToken v) = true) := by
  unfold isBooleanLike
  by_cases hemp : vals.isEmpty = true
  · rw [if_pos hemp]
    rw [List.isEmpty_eq_true] at hemp
    subst hemp
    simp
  · rw [if_neg hemp]
    by_cases hnn : (vals.filter (fun v => !isNA v)).isEmpty = true
    · rw [if_pos hnn]
      rw [List.isEmpty_eq_true, List.filter_eq_nil_iff] at hnn
      constructor
      · intro habs
        exact absurd habs (by simp)
      · intro ⟨hany, _⟩
        rw [List.any_eq_true] at hany
        obtain ⟨v, hv, hna⟩ := hany
        exact absurd hna (hnn v hv)
    · rw [if_neg hnn]
      have hdedup : (((vals.filter (fun v => !isNA v)).map mapTo01).filterMap
          id).dedup.all (fun x => x == 0 || x == 1) = true := by
        rw [List.all_eq_true]
        intro x hx
        rw [List.mem_dedup, List.mem_filterMap] at hx
        obtain ⟨o, ho, hid⟩ := hx
        rw [List.mem_map] at ho
        obtain ⟨v, _, hvo⟩ := ho
        have : mapTo01 v = some x := by rw [hvo]; exact hid
        rcases mapTo01_val this with h | h <;> simp [h]
      rw [hdedup, Bool.and_true]
      have hnn' : vals.filter (fun v => !isNA v) ≠ [] := by
        intro habs
        exact hnn (by rw [habs]; rfl)
      constructor
      · intro hall
        constructor
        · rw [List.any_eq_true]
          obtain ⟨v, hv⟩ := List.exists_mem_of_ne_nil _ hnn'
          rw [List.mem_filter] at hv
          exact ⟨v, hv.1, hv.2⟩
        · rw [List.all_eq_true]
          intro v hv
          by_cases hna : isNA v = true
          · simp [hna]
          · have hvf : v ∈ vals.filter (fun v => !isNA v) := by
              rw [List.mem_filter]
              exact ⟨hv, by simp [hna]⟩
            rw [List.all_eq_true] at hall
            have := hall (mapTo01 v) (List.mem_map_of_mem _ hvf)
            rw [mapTo01_isSome] at this
            simp [this]
      · intro ⟨_, hall⟩
        rw [List.all_eq_true]
        intro o ho
        rw [List.mem_map] at ho
        obtain ⟨v, hv, rfl⟩ := ho
        rw [List.mem_filter] at hv
        rw [mapTo01_isSome]
        rw [List.all_eq_true] at hall
        have := hall v hv.1
        rcases Bool.or_eq_true_iff.mp this with h | h
        · rw [h] at hv
          exact absurd hv.2 (by simp)
        · exact h

/-- C9 counterexample: an all-null column satisfies the claim's premise
vacuously (every non-null value is a boolean token) yet
`is_boolean_like` returns `False` for it, so the claim as universally
stated fails; a non-null witness value is required. -/
theorem c9_counterexample :
    ([CVal.null].all (fun v => isNA v || specBoolToken v)) = true ∧
    isBooleanLike [CVal.null] = false :=
  ⟨by decide, by decide⟩

/-- C9 (amended): a column is detected boolean-like exactly when it has
at least one non-null value and every non-null value is one of the
claim's boolean tokens (native boolean, integer 0/1, float 0.0/1.0, or a
fixed true/false string token); in particular `{0, 1, "yes", "no"}` is
boolean-like and a column containing a bare integer 2 is not. -/
theorem c9_boolean_like_amended :
    (∀ vals : List CVal, isBooleanLike vals =
      (vals.any (fun v => !isNA v) &&
        vals.all (fun v => isNA v || specBoolToken v))) ∧
    isBooleanLike
      [CVal.int 0, CVal.int 1, CVal.str (lit "yes"), CVal.str (lit "no")] = true ∧
    isBooleanLike [CVal.int 0, CVal.int 1, CVal.int 2] = false := by
  refine ⟨?_, by decide, by decide⟩
  intro vals
  cases hrhs : (vals.any (fun v => !isNA v) &&
      vals.all (fun v => isNA v || specBoolToken v)) with
  | true =>
    rw [Bool.and_eq_true] at hrhs
    exact (isBooleanLike_iff vals).mpr ⟨hrhs.1, hrhs.2⟩
  | false =>
    by_cases hl : isBooleanLike vals = true
    · exfalso
      obtain ⟨h1, h2⟩ := (isBooleanLike_iff vals).mp hl
      rw [h1, h2] at hrhs
      exact absurd hrhs (by simp)
    · rw [Bool.not_eq_true] at hl
      exact hl

/-- The non-integral year `2009.5`, written with the raw constructor so
the denominator is kernel-computable. -/
def q2009half : ℚ := Rat.mk' 4019 2 (by decide) (by decide)

/-- C10 counterexample: on a table whose (present) time column holds the
float `2009.5`, with the non-digit selection `["-5"]`, `apply_year_filter`
raises — `extract_years`'s `astype("Int64")` cannot safely cast the
non-integral float — instead of returning a zero-row table as the claim
states for every table with the time column present. -/
theorem c10_counterexample :
    (colNames [(lit "year", PCol.nums [some q2009half])]).contains
      (lit "year") = true ∧
    ([YSel.str (lit "-5")] : List YSel).isEmpty = false ∧
    ([YSel.str (lit "-5")] : List YSel).contains (YSel.str ALL_SENTINEL) = false ∧
    ([YSel.str (lit "-5")] : List YSel).all
      (fun y => !pyIsdigit (pyStrY y)) = true ∧
    applyYearFilter [(lit "year", PCol.nums [some q2009half])]
      (some (lit "year")) (some [YSel.str (lit "-5")]) = none :=
  ⟨by decide, by decide, by decide, by decide, by decide⟩

/-- C10 (amended): with the time column present, a non-empty selection
list containing neither the ALL sentinel nor any element whose string
form is all digits is silently reduced to the empty year list, and —
provided the year extraction's Int64 cast succeeds (datetime column, or
numeric coercion yielding only nulls and whole numbers) — the `isin`
membership test against the empty list empties the table: the filter
returns a table every column of which has zero rows.  When the cast
fails the call raises instead. -/
theorem c10_year_filter_empties_table (df : DF) (t : Name) (ys : List YSel)
    (hmem : (colNames df).contains t = true) (hne : ys ≠ [])
    (hall : YSel.str ALL_SENTINEL ∉ ys)
    (hdig : ∀ y ∈ ys, pyIsdigit (pyStrY y) = false)
    (hcast : extractYears ((getCol df t).getD (PCol.nums [])) ≠ none) :
    ∃ r : DF, applyYearFilter df (some t) (some ys) = some r ∧
      ∀ p ∈ r, colLen p.2 = 0 := by
  obtain ⟨yearS, hys⟩ := Option.ne_none_iff_exists'.mp hcast
  simp only [applyYearFilter]
  rw [hmem]
  have hemp : ys.isEmpty = false := by
    rw [List.isEmpty_eq_false]
    exact hne
  rw [hemp]
  have hsent : ys.contains (YSel.str ALL_SENTINEL) = false := by
    simp only [List.contains, List.elem_eq_mem, decide_eq_false_iff_not]
    exact hall
  rw [hsent]
  simp only [Bool.not_true, Bool.false_eq_true, if_false, Bool.not_false,
    if_true]
  have hyrs : ys.filterMap
      (fun y => if pyIsdigit (pyStrY y) then some (pyIntOfDigits (pyStrY y))
        else none) = [] := by
    rw [List.filterMap_eq_nil_iff]
    intro y hy
    rw [hdig y hy]
    rfl
  rw [hyrs, hys]
  refine ⟨_, rfl, ?_⟩
  intro p hp
  unfold filterMask at hp
  have hkeep : ∀ (mask : List Bool), (∀ b ∈ mask, b = false) →
      (List.range mask.length).filter (fun i => mask.getD i false) = [] := by
    intro mask hmask
    rw [List.filter_eq_nil_iff]
    intro i _
    rw [List.getD_eq_getElem?_getD]
    cases hgi : mask[i]? with
    | none => simp
    | some b =>
      have := hmask b (List.getElem?_mem hgi)
      simp [this]
  rw [hkeep _ ?hfalse] at hp
  case hfalse =>
    intro b hb
    rw [List.mem_map] at hb
    obtain ⟨o, _, hob⟩ := hb
    cases o with
    | none => exact hob.symm
    | some z => exact hob.symm
  rw [List.mem_map] at hp
  obtain ⟨p0, _, hpe⟩ := hp
  rw [← hpe]
  cases p0.2 <;> rfl

/-- C10 witness: a one-row table with the whole-number year 2009,
filtered by the selections `["-5", "abc"]` (no ALL sentinel, nothing
all-digits), extracts years successfully and becomes a zero-row table. -/
theorem c10_year_filter_witness :
    (colNames [(lit "year", PCol.nums [some 2009])]).contains (lit "year") = true ∧
    ([YSel.str (lit "-5"), YSel.str (lit "abc")] : List YSel) ≠ [] ∧
    YSel.str ALL_SENTINEL ∉ ([YSel.str (lit "-5"), YSel.str (lit "abc")] : List YSel) ∧
    (∀ y ∈ ([YSel.str (lit "-5"), YSel.str (lit "abc")] : List YSel),
      pyIsdigit (pyStrY y) = false) ∧
    extractYears ((getCol [(lit "year", PCol.nums [some 2009])]
      (lit "year")).getD (PCol.nums [])) ≠ none ∧
    (∃ r : DF, applyYearFilter [(lit "year", PCol.nums [some 2009])]
        (some (lit "year")) (some [YSel.str (lit "-5"), YSel.str (lit "abc")]) =
          some r ∧ ∀ p ∈ r, colLen p.2 = 0) ∧
    applyYearFilter [(lit "year", PCol.nums [some 2009])] (some (lit "year"))
        (some [YSel.str (lit "-5"), YSel.str (lit "abc")]) =
      some [(lit "year", PCol.nums [])] :=
  ⟨by decide, by decide, by decide, by decide, by decide,
    c10_year_filter_empties_table _ _ _ (by decide) (by decide) (by decide)
      (by decide) (by decide),
    by decide⟩

end VisTool
